import Mathlib

/-!
Verification of the protocol core of rcon_client.py: the Huffman payload
codec, the packet framing built on it, and the connection/session state
machine (connect, listen loop, disconnect) of class RCONClient.

The repository ships only rcon_client.py under src/.  The two modules it
imports, huffman (HuffmanObject, SKULLTAG_FREQS) and headers (svrc, svrcu,
clrc, protocol_ver), are part of the project but not under src/, so they are
modelled from the spec where needed; every such definition carries a doc
comment starting with Modelled from the spec.  External collaborators that
are not repository code at all (hashlib.md5, the regex colour stripper,
bytes.decode with replacement) are modelled as parameters or as faithful
total stand-ins, as the spec directs (sections 1 and 6 declare them out of
scope collaborators of the core).
-/

/-- Modelled from the spec: the huffman module is not under src/.  Per spec
sections 2 and 3, the codec owns a binary prefix-code tree whose leaves are
the 256 byte values, built once from a fixed frequency table. -/
inductive HTree where
  | leaf (sym : Nat)
  | node (l r : HTree)
deriving DecidableEq

/-- Byte values appearing as leaves of a tree. -/
def symsIn : HTree → List Nat
  | HTree.leaf s => [s]
  | HTree.node l r => symsIn l ++ symsIn r

/-- Leaves of a whole forest of weighted trees. -/
def forestSyms : List (Nat × HTree) → List Nat
  | [] => []
  | p :: rest => symsIn p.2 ++ forestSyms rest

/-- Modelled from the spec: remove the least-weight tree from a forest
(first occurrence on ties, giving the stable tie-break of spec section 3),
returning it together with the remaining forest. -/
def extractMin : List (Nat × HTree) → Option ((Nat × HTree) × List (Nat × HTree))
  | [] => none
  | x :: xs =>
    match extractMin xs with
    | none => some (x, [])
    | some (m, rest) => if x.1 ≤ m.1 then some (x, xs) else some (m, x :: rest)

/-- Modelled from the spec: the standard greedy Huffman merge loop.  Each
step removes the two least-weight trees and reinserts their merge; the fuel
argument bounds the number of merges (one less than the forest size at the
top-level call, so it never runs out there). -/
def buildLoopF (fuel : Nat) (forest : List (Nat × HTree)) : Option HTree :=
  match extractMin forest with
  | none => none
  | some (a, rest1) =>
    match extractMin rest1 with
    | none => some a.2
    | some (b, rest2) =>
      match fuel with
      | 0 => none
      | f + 1 => buildLoopF f ((a.1 + b.1, HTree.node a.2 b.2) :: rest2)

/-- Initial forest: one leaf per byte value, paired with its weight; the
index argument carries the byte value of the next leaf. -/
def initForest : Nat → List Nat → List (Nat × HTree)
  | _, [] => []
  | i, w :: ws => (w, HTree.leaf i) :: initForest (i + 1) ws

/-- Modelled from the spec: build the shared canonical tree from a
frequency table (spec section 3, HuffmanTree). -/
def buildTree (freqs : List Nat) : Option HTree :=
  buildLoopF (initForest 0 freqs).length (initForest 0 freqs)

/-- Path (codeword) of a byte value in the tree: false for the left branch,
true for the right branch; none when the byte is not a leaf. -/
def codeOf : HTree → Nat → Option (List Bool)
  | HTree.leaf s, b => if b = s then some [] else none
  | HTree.node l r, b =>
    match codeOf l b with
    | some p => some (false :: p)
    | none =>
      match codeOf r b with
      | some p => some (true :: p)
      | none => none

/-- Follow bits from the root down to a leaf, returning the leaf byte and
the unconsumed bits; none when the bits run out inside the tree. -/
def decodeSym : HTree → List Bool → Option (Nat × List Bool)
  | HTree.leaf s, bs => some (s, bs)
  | HTree.node _ _, [] => none
  | HTree.node l _, false :: bs => decodeSym l bs
  | HTree.node _ r, true :: bs => decodeSym r bs

/-- Concatenate the codewords of a byte sequence. -/
def encodeBits (t : HTree) : List Nat → Option (List Bool)
  | [] => some []
  | m :: ms =>
    match codeOf t m with
    | none => none
    | some p =>
      match encodeBits t ms with
      | none => none
      | some ps => some (p ++ ps)

/-- Decode a bit stream symbol by symbol; the fuel bounds the number of
decoded symbols so a malformed stream can never loop (spec section 4.1). -/
def decodeLoop (t : HTree) : Nat → List Bool → Option (List Nat)
  | _, [] => some []
  | 0, _ :: _ => none
  | fuel + 1, b :: bs =>
    match decodeSym t (b :: bs) with
    | none => none
    | some (s, rest) => Option.map (fun ms => s :: ms) (decodeLoop t fuel rest)

/-- Value of a bit list read least-significant-bit first. -/
def bitsToByteLSB : List Bool → Nat
  | [] => 0
  | b :: rest => (if b then 1 else 0) + 2 * bitsToByteLSB rest

/-- The low k bits of a value, least-significant-bit first. -/
def byteToBits : Nat → Nat → List Bool
  | 0, _ => []
  | k + 1, n => (n % 2 == 1) :: byteToBits k (n / 2)

/-- Unpack every byte of a buffer into its 8 bits. -/
def bytesToBits : List Nat → List Bool
  | [] => []
  | b :: rest => byteToBits 8 b ++ bytesToBits rest

/-- Pack a bit list into bytes, 8 bits per byte (a final short chunk is
zero-extended; the encoder always pads to a multiple of 8 first). -/
def bitsToBytes : List Bool → List Nat
  | [] => []
  | b :: rest => bitsToByteLSB ((b :: rest).take 8) :: bitsToBytes (rest.drop 7)
termination_by l => l.length
decreasing_by simp only [List.length_drop, List.length_cons]; omega

/-- Modelled from the spec: HuffmanCodec.encode (spec section 4.1).  The
output is self-delimiting: its first byte holds the number of padding bits
appended to fill the last byte, followed by the packed codeword stream. -/
def huffEncode (t : HTree) (msg : List Nat) : Option (List Nat) :=
  match encodeBits t msg with
  | none => none
  | some bits =>
    let pad := (8 - bits.length % 8) % 8
    some (pad :: bitsToBytes (bits ++ List.replicate pad false))

/-- Modelled from the spec: HuffmanCodec.decode (spec section 4.1), the
exact inverse of huffEncode; none models the CorruptStream condition. -/
def huffDecode (t : HTree) (packet : List Nat) : Option (List Nat) :=
  match packet with
  | [] => none
  | pad :: rest =>
    let bits := bytesToBits rest
    if pad ≤ bits.length then
      let payload := bits.take (bits.length - pad)
      decodeLoop t payload.length payload
    else none

/-- Modelled from the spec: the fixed 256-entry frequency table (spec
section 3, FrequencyTable).  The concrete weights live in the huffman
module, which is not under src/; the round-trip theorem below is proved
for every 256-entry table via buildLoopF_spec, so this stand-in choice of
weights is immaterial to every claim. -/
def SKULLTAG_FREQS : List Nat := List.replicate 256 1

/-- The process-wide codec tree, mirroring the module-level
H = huffman.HuffmanObject(huffman.SKULLTAG_FREQS) of rcon_client.py. -/
def Htree : HTree := (buildTree SKULLTAG_FREQS).getD (HTree.leaf 0)

/-- UTF-8 encoding of one character (Python str.encode). -/
def utf8EncodeChar (c : Char) : List Nat :=
  let n := c.toNat
  if n < 128 then [n]
  else if n < 2048 then [192 + n / 64, 128 + n % 64]
  else if n < 65536 then [224 + n / 4096, 128 + (n / 64) % 64, 128 + n % 64]
  else [240 + n / 262144, 128 + (n / 4096) % 64, 128 + (n / 64) % 64, 128 + n % 64]

/-- UTF-8 encoding of a character list. -/
def utf8EncodeChars : List Char → List Nat
  | [] => []
  | c :: cs => utf8EncodeChar c ++ utf8EncodeChars cs

/-- UTF-8 encoding of a string, as Python str.encode produces it:
unterminated byte sequence. -/
def utf8Encode (s : String) : List Nat := utf8EncodeChars s.data

/-- The Unicode replacement character U+FFFD. -/
def replChar : Char := Char.ofNat 65533

/-- Is a byte a UTF-8 continuation byte. -/
def isCont (b : Nat) : Bool := 128 ≤ b && b ≤ 191

/-- Valid second byte of a UTF-8 sequence led by b (tightened ranges for
E0, ED, F0 and F4 exclude overlong forms, surrogates and values beyond
U+10FFFF, as the standard decoder does). -/
def validSecond (b b1 : Nat) : Bool :=
  if b = 224 then decide (160 ≤ b1) && decide (b1 ≤ 191)
  else if b = 237 then decide (128 ≤ b1) && decide (b1 ≤ 159)
  else if b = 240 then decide (144 ≤ b1) && decide (b1 ≤ 191)
  else if b = 244 then decide (128 ≤ b1) && decide (b1 ≤ 143)
  else isCont b1

/-- Decode one character given a lead byte and the bytes after it: the
character (or the replacement character on an invalid or truncated
sequence) and how many bytes after the lead byte were consumed. -/
def utf8Step (b : Nat) (rest : List Nat) : Char × Nat :=
  if b ≤ 127 then (Char.ofNat b, 0)
  else if 194 ≤ b && b ≤ 223 then
    match rest with
    | b1 :: _ =>
      if isCont b1 then (Char.ofNat ((b - 192) * 64 + (b1 - 128)), 1)
      else (replChar, 0)
    | [] => (replChar, 0)
  else if 224 ≤ b && b ≤ 239 then
    match rest with
    | b1 :: b2 :: _ =>
      if validSecond b b1 then
        if isCont b2 then
          (Char.ofNat ((b - 224) * 4096 + (b1 - 128) * 64 + (b2 - 128)), 2)
        else (replChar, 1)
      else (replChar, 0)
    | [b1] => if validSecond b b1 then (replChar, 1) else (replChar, 0)
    | [] => (replChar, 0)
  else if 240 ≤ b && b ≤ 244 then
    match rest with
    | b1 :: b2 :: b3 :: _ =>
      if validSecond b b1 then
        if isCont b2 then
          if isCont b3 then
            (Char.ofNat ((b - 240) * 262144 + (b1 - 128) * 4096 +
              (b2 - 128) * 64 + (b3 - 128)), 3)
          else (replChar, 2)
        else (replChar, 1)
      else (replChar, 0)
    | [b1, b2] =>
      if validSecond b b1 then (if isCont b2 then (replChar, 2) else (replChar, 1))
      else (replChar, 0)
    | [b1] => if validSecond b b1 then (replChar, 1) else (replChar, 0)
    | [] => (replChar, 0)
  else (replChar, 0)

/-- Total UTF-8 decoder with replacement, modelling Python
bytes.decode(errors = replace) from the standard library (an external
collaborator of the core): invalid or truncated sequences turn into the
replacement character and decoding continues, so the function is total on
every byte sequence. -/
def utf8DecodeReplaceChars : List Nat → List Char
  | [] => []
  | b :: rest =>
    (utf8Step b rest).1 :: utf8DecodeReplaceChars (rest.drop (utf8Step b rest).2)
termination_by l => l.length
decreasing_by simp only [List.length_drop, List.length_cons]; omega

/-- Lowercase hexadecimal digit as an ASCII code: 0-9 then a-f. -/
def hexChar (n : Nat) : Nat := if n < 10 then 48 + n else 87 + n

/-- ASCII bytes of the lowercase hex encoding of a digest, two characters
per byte, modelling Python hashlib digest .hexdigest().encode(). -/
def hexDigestAscii : List Nat → List Nat
  | [] => []
  | b :: rest => hexChar (b / 16) :: hexChar (b % 16) :: hexDigestAscii rest

/-- Modelled from the spec: headers.py is not under src/.  The spec fixes
only that opcodes are protocol-defined byte constants drawn from disjoint
client-to-server and server-to-client enumerations (spec sections 3 and 6);
the concrete numbers follow the Zandronum protocol.  No claim depends on
the numeric values, only on their distinctness. -/
def svrc_OldProtocol : Nat := 32

/-- Modelled from the spec: server-to-client opcode, see svrc_OldProtocol. -/
def svrc_Banned : Nat := 33

/-- Modelled from the spec: server-to-client opcode, see svrc_OldProtocol. -/
def svrc_Salt : Nat := 34

/-- Modelled from the spec: server-to-client opcode, see svrc_OldProtocol. -/
def svrc_LoggedIn : Nat := 35

/-- Modelled from the spec: server-to-client opcode, see svrc_OldProtocol. -/
def svrc_InvalidPassword : Nat := 36

/-- Modelled from the spec: server-to-client opcode, see svrc_OldProtocol. -/
def svrc_Message : Nat := 37

/-- Modelled from the spec: server-to-client opcode, see svrc_OldProtocol. -/
def svrc_Update : Nat := 38

/-- Modelled from the spec: server-to-client opcode, see svrc_OldProtocol. -/
def svrc_TabComplete : Nat := 39

/-- Modelled from the spec: server-to-client opcode, see svrc_OldProtocol. -/
def svrc_TooManyTabCompletes : Nat := 40

/-- Modelled from the spec: the values of the unreliable/broadcast
server-to-client opcode enumeration svrcu (spec section 3), disjoint from
the reliable opcodes above. -/
def svrcuValues : List Nat := [200, 201, 202]

/-- Modelled from the spec: client-to-server opcode, see svrc_OldProtocol. -/
def clrc_BeginConnection : Nat := 52

/-- Modelled from the spec: client-to-server opcode, see svrc_OldProtocol. -/
def clrc_Password : Nat := 53

/-- Modelled from the spec: client-to-server opcode, see svrc_OldProtocol. -/
def clrc_Command : Nat := 54

/-- Modelled from the spec: client-to-server opcode, see svrc_OldProtocol. -/
def clrc_Pong : Nat := 55

/-- Modelled from the spec: client-to-server opcode, see svrc_OldProtocol. -/
def clrc_Disconnect : Nat := 56

/-- Modelled from the spec: the protocol version sent in BeginConnection
(headers.py, not under src/); a single small integer written as one byte. -/
def protocol_ver : Nat := 4

/-- The error conditions raised by rcon_client.py.  The first four are the
ZandronumError exceptions raised with the messages below; corruptStream
models an exception escaping the huffman module on undecodable input, and
emptyPacket models the IndexError raised by data[0] on an empty decoded
buffer (the condition the spec names MalformedPacket). -/
inductive ZandronumError where
  | timedOut
  | oldProtocol
  | banned
  | invalidPassword
  | corruptStream
  | emptyPacket
deriving DecidableEq

/-- The message carried by each error, matching the source strings. -/
def ZandronumError.message : ZandronumError → String
  | ZandronumError.timedOut => "Connection timed out."
  | ZandronumError.oldProtocol => "Server reports old protocol."
  | ZandronumError.banned => "Your IP is banned on this server."
  | ZandronumError.invalidPassword => "Invalid RCON password."
  | ZandronumError.corruptStream => "huffman decode failed"
  | ZandronumError.emptyPacket => "index out of range"

/-- Which errors are ZandronumError exceptions in the source (the listener
catches these separately from generic exceptions). -/
def ZandronumError.isZandronum : ZandronumError → Bool
  | ZandronumError.timedOut => true
  | ZandronumError.oldProtocol => true
  | ZandronumError.banned => true
  | ZandronumError.invalidPassword => true
  | ZandronumError.corruptStream => false
  | ZandronumError.emptyPacket => false

/-- The SHOW_COLORS configuration constant of rcon_client.py. -/
def SHOW_COLORS : Bool := false

/-- External collaborators consumed by the core, as spec section 6 lists
them: the MD5 digest (hashlib.md5(data).digest(), 16 bytes) and the
display colour stripper strip_colors (regex display formatting, declared
out of scope by spec section 1). -/
structure Externals where
  md5 : List Nat → List Nat
  stripColors : String → String

/-- A concrete instantiation of the external collaborators used by the
closed witness statements below. -/
def ext0 : Externals where
  md5 := fun _ => List.replicate 16 0
  stripColors := fun s => s

/-- Display text of an inbound payload: decode with replacement, then strip
colour codes unless SHOW_COLORS is set (the Message branch of
handle_packet). -/
def displayText (ext : Externals) (data : List Nat) : String :=
  let msg := String.mk (utf8DecodeReplaceChars data)
  if SHOW_COLORS then msg else ext.stripColors msg

namespace RCONClient

/-- One element of the tuple handed to RCONClient.encode: raw bytes, text,
or an int written as a single byte (the three isinstance branches). -/
inductive PacketItem where
  | op (b : Nat)
  | raw (bs : List Nat)
  | text (s : String)
deriving DecidableEq

/-- Serialized byte form of one item, per the isinstance chain of
RCONClient.encode: bytes pass through, str is UTF-8 encoded with no
terminator, an int becomes one byte via bytes([item]) and is therefore
only valid below 256 (Python raises ValueError otherwise). -/
def serializeItem : PacketItem → Option (List Nat)
  | PacketItem.raw bs => some bs
  | PacketItem.text s => some (utf8Encode s)
  | PacketItem.op b => if b < 256 then some [b] else none

/-- The BytesIO accumulation loop of RCONClient.encode: each item's bytes
are written onto the end of the buffer, left to right. -/
def writeItemsAux : List Nat → List PacketItem → Option (List Nat)
  | buf, [] => some buf
  | buf, item :: rest =>
    match serializeItem item with
    | none => none
    | some bs => writeItemsAux (buf ++ bs) rest

/-- Itemwise serialization of a field list (used to state that the buffer
is the left-to-right concatenation of the items' byte forms). -/
def serializeAll : List PacketItem → Option (List (List Nat))
  | [] => some []
  | item :: rest =>
    match serializeItem item, serializeAll rest with
    | some bs, some bss => some (bs :: bss)
    | _, _ => none

/-- Concatenation of a list of byte lists, left to right. -/
def concatAll : List (List Nat) → List Nat
  | [] => []
  | l :: rest => l ++ concatAll rest

/-- RCONClient.encode: write all items into one buffer, then Huffman-encode
that buffer with the shared codec H. -/
def encode (parts : List PacketItem) : Option (List Nat) :=
  match writeItemsAux [] parts with
  | none => none
  | some buf => huffEncode Htree buf

/-- RCONClient.decode: H.decode of the raw datagram. -/
def decode (packet : List Nat) : Option (List Nat) := huffDecode Htree packet

/-- The mutable state of an RCONClient instance: address and password set
by connect, the running flag, and whether the UDP socket is still open. -/
structure Session where
  address : String
  rcon_password : String
  running : Bool
  socketOpen : Bool
deriving DecidableEq

/-- A fresh client as built by RCONClient.__init__: socket open, no
address or password, not running. -/
def init : Session :=
  { address := "", rcon_password := "", running := false, socketOpen := true }

/-- Observable side effects of the client: sending a datagram whose wire
bytes are encode parts (self.send_packet / sendto), printing a line, and
starting the background listener thread. -/
inductive Effect where
  | send (parts : List PacketItem)
  | printLine (s : String)
  | startListener
deriving DecidableEq

/-- Outcome of one blocking recvfrom call: a timeout, or a datagram with
the sender address and the raw bytes. -/
inductive RecvResult where
  | timeout
  | datagram (src : String) (raw : List Nat)

/-- Whether the listen loop keeps iterating after a step or breaks out. -/
inductive LoopControl where
  | next
  | stopped
deriving DecidableEq

/-- The leading-opcode split applied to every decoded inbound buffer
(packet_id = data[0]; payload = data[1:] in connect and listen_loop);
an empty buffer raises IndexError, modelled as emptyPacket. -/
def parseIncoming : List Nat → Except ZandronumError (Nat × List Nat)
  | [] => Except.error ZandronumError.emptyPacket
  | b :: rest => Except.ok (b, rest)

/-- RCONClient.handle_packet: dispatch on the opcode of a decoded inbound
packet.  Raising is modelled by Except.error; the returned list holds the
send/print effects of the taken branch.  The session state is never
written by this method. -/
def handle_packet (ext : Externals) (s : Session) (packet_id : Nat)
    (packet_data : List Nat) : Except ZandronumError (List Effect) :=
  if packet_id = svrc_OldProtocol then Except.error ZandronumError.oldProtocol
  else if packet_id = svrc_Banned then Except.error ZandronumError.banned
  else if packet_id = svrc_Salt then
    let salt := packet_data.take 32
    let md5hex := hexDigestAscii (ext.md5 (salt ++ utf8Encode s.rcon_password))
    Except.ok [Effect.send [PacketItem.op clrc_Password, PacketItem.raw md5hex]]
  else if packet_id = svrc_LoggedIn then
    Except.ok [Effect.printLine "[ OK ] Logged in."]
  else if packet_id = svrc_InvalidPassword then
    Except.error ZandronumError.invalidPassword
  else if packet_id = svrc_Message then
    Except.ok [Effect.printLine (displayText ext packet_data)]
  else if packet_id = svrc_Update then Except.ok []
  else if packet_id = svrc_TabComplete then Except.ok []
  else if packet_id = svrc_TooManyTabCompletes then Except.ok []
  else if packet_id ∈ svrcuValues then
    Except.ok [Effect.printLine (displayText ext packet_data)]
  else
    Except.ok [Effect.printLine ("[server:" ++ toString packet_id ++ "] Unknown packet")]

/-- RCONClient.disconnect.  The two flags model the swallowed exceptions:
sendFails makes the best-effort Disconnect send fail (try/except pass) and
closeFails makes socket.close fail likewise.  The function is total: no
input makes it raise, mirroring that every exception is caught. -/
def disconnect (sendFails closeFails : Bool) (s : Session) : Session × List Effect :=
  let a :=
    if s.running then
      if sendFails then ({ s with running := false }, ([] : List Effect))
      else ({ s with running := false },
            [Effect.send [PacketItem.op clrc_Disconnect]])
    else (s, ([] : List Effect))
  let s2 := if closeFails then a.1 else { a.1 with socketOpen := false }
  (s2, a.2 ++ [Effect.printLine "[Disconnected]"])

/-- RCONClient.connect as a function of the single recvfrom outcome it
awaits: store address and password, print, send BeginConnection with the
protocol version, then either time out (ZandronumError, no retry), or
decode the reply, split off the opcode, dispatch it, and only if the
handler returns normally set running and start the listener thread.
Errors are returned alongside the state reached when they propagate. -/
def connect (ext : Externals) (s : Session) (address password : String)
    (recv : RecvResult) : Session × List Effect × Option ZandronumError :=
  let s1 := { s with address := address, rcon_password := password }
  let e0 := [Effect.printLine ("[+] Connecting to " ++ address ++ "..."),
             Effect.send [PacketItem.op clrc_BeginConnection, PacketItem.op protocol_ver]]
  match recv with
  | RecvResult.timeout => (s1, e0, some ZandronumError.timedOut)
  | RecvResult.datagram src raw =>
    let e1 := e0 ++ [Effect.printLine ("[ OK ] Server found: " ++ src)]
    match decode raw with
    | none => (s1, e1, some ZandronumError.corruptStream)
    | some decoded =>
      match parseIncoming decoded with
      | Except.error e => (s1, e1, some e)
      | Except.ok (pid, rest) =>
        match handle_packet ext s1 pid rest with
        | Except.error e => (s1, e1, some e)
        | Except.ok effs =>
          ({ s1 with running := true }, e1 ++ effs ++ [Effect.startListener], none)

/-- One iteration of RCONClient.listen_loop as a function of the recvfrom
outcome: nothing happens when running is already false (the while guard);
a timeout sends one Pong and continues; a datagram is decoded, split and
dispatched; a ZandronumError prints with the ERROR prefix, any other
exception (huffman failure, IndexError on an empty buffer) prints with the
Unhandled error prefix, and either one disconnects and breaks. -/
def listen_loop_iter (ext : Externals) (s : Session) (recv : RecvResult) :
    Session × List Effect × LoopControl :=
  if s.running = true then
    match recv with
    | RecvResult.timeout => (s, [Effect.send [PacketItem.op clrc_Pong]], LoopControl.next)
    | RecvResult.datagram _ raw =>
      match decode raw with
      | none =>
        let d := disconnect false false s
        (d.1, Effect.printLine ("[Unhandled error]: " ++ ZandronumError.corruptStream.message) :: d.2,
         LoopControl.stopped)
      | some decoded =>
        match parseIncoming decoded with
        | Except.error e =>
          let d := disconnect false false s
          (d.1, Effect.printLine ("[Unhandled error]: " ++ e.message) :: d.2,
           LoopControl.stopped)
        | Except.ok (pid, rest) =>
          match handle_packet ext s pid rest with
          | Except.ok effs => (s, effs, LoopControl.next)
          | Except.error e =>
            let d := disconnect false false s
            (d.1, Effect.printLine ("[ERROR]: " ++ e.message) :: d.2,
             LoopControl.stopped)
  else (s, [], LoopControl.stopped)

/-- RCONClient.send_command: one Command packet carrying the command text. -/
def send_command (cmd : String) : Effect :=
  Effect.send [PacketItem.op clrc_Command, PacketItem.text cmd]

end RCONClient

/-- A session in the established state, used by closed witness statements. -/
def listeningSession : RCONClient.Session :=
  { address := "a", rcon_password := "pw", running := true, socketOpen := true }

/-- Wire bytes of a Salt packet carrying 32 zero salt bytes. -/
def saltRaw : List Nat :=
  (huffEncode Htree (svrc_Salt :: List.replicate 32 0)).getD []

/-- Wire bytes of an InvalidPassword packet. -/
def invRaw : List Nat := (huffEncode Htree [svrc_InvalidPassword]).getD []

/-- Wire bytes of a datagram whose decoded buffer is empty. -/
def emptyRaw : List Nat := (huffEncode Htree []).getD []

/-- Wire bytes of a Message packet whose payload is not valid UTF-8. -/
def msgRaw : List Nat := (huffEncode Htree [svrc_Message, 255, 65]).getD []

theorem extractMin_eq_none (l : List (Nat × HTree)) : extractMin l = none ↔ l = [] := by
  cases l with
  | nil => simp [extractMin]
  | cons x xs =>
    simp only [extractMin]
    cases h : extractMin xs with
    | none => simp
    | some mr =>
      obtain ⟨m, rest⟩ := mr
      by_cases hle : x.1 ≤ m.1 <;> simp [hle]

theorem extractMin_length (l : List (Nat × HTree)) (x : Nat × HTree)
    (rest : List (Nat × HTree)) (h : extractMin l = some (x, rest)) :
    rest.length + 1 = l.length := by
  induction l generalizing x rest with
  | nil => simp [extractMin] at h
  | cons a xs ih =>
    simp only [extractMin] at h
    cases hm : extractMin xs with
    | none =>
      rw [hm] at h
      have hxs : xs = [] := (extractMin_eq_none xs).mp hm
      subst hxs
      simp only [Option.some.injEq, Prod.mk.injEq] at h
      obtain ⟨h1, h2⟩ := h
      subst h2
      simp
    | some mr =>
      obtain ⟨m, r⟩ := mr
      rw [hm] at h
      by_cases hle : a.1 ≤ m.1
      · simp only [hle, if_true, Option.some.injEq, Prod.mk.injEq] at h
        obtain ⟨h1, h2⟩ := h
        subst h2
        simp
      · simp only [hle, if_false, Option.some.injEq, Prod.mk.injEq] at h
        obtain ⟨h1, h2⟩ := h
        subst h2
        have := ih m r hm
        simp only [List.length_cons]
        omega

theorem extractMin_syms (l : List (Nat × HTree)) (x : Nat × HTree)
    (rest : List (Nat × HTree)) (h : extractMin l = some (x, rest)) (s : Nat) :
    s ∈ forestSyms l ↔ s ∈ symsIn x.2 ∨ s ∈ forestSyms rest := by
  induction l generalizing x rest with
  | nil => simp [extractMin] at h
  | cons a xs ih =>
    simp only [extractMin] at h
    cases hm : extractMin xs with
    | none =>
      rw [hm] at h
      have hxs : xs = [] := (extractMin_eq_none xs).mp hm
      subst hxs
      simp only [Option.some.injEq, Prod.mk.injEq] at h
      obtain ⟨h1, h2⟩ := h
      subst h1
      subst h2
      simp [forestSyms]
    | some mr =>
      obtain ⟨m, r⟩ := mr
      rw [hm] at h
      by_cases hle : a.1 ≤ m.1
      · simp only [hle, if_true, Option.some.injEq, Prod.mk.injEq] at h
        obtain ⟨h1, h2⟩ := h
        subst h1
        subst h2
        simp [forestSyms]
      · simp only [hle, if_false, Option.some.injEq, Prod.mk.injEq] at h
        obtain ⟨h1, h2⟩ := h
        subst h1
        subst h2
        have hx := ih m r hm
        simp only [forestSyms, List.mem_append] at *
        tauto

theorem buildLoopF_last (fuel : Nat) (forest : List (Nat × HTree)) (a : Nat × HTree)
    (h1 : extractMin forest = some (a, [])) : buildLoopF fuel forest = some a.2 := by
  rw [buildLoopF]
  split
  · rename_i heq
    rw [h1] at heq
    cases heq
  · rename_i heq
    rw [h1] at heq
    simp only [Option.some.injEq, Prod.mk.injEq] at heq
    obtain ⟨ha, hr⟩ := heq
    subst ha
    subst hr
    rfl

theorem buildLoopF_step (fuel : Nat) (forest : List (Nat × HTree)) (a b : Nat × HTree)
    (rest1 rest2 : List (Nat × HTree)) (h1 : extractMin forest = some (a, rest1))
    (h2 : extractMin rest1 = some (b, rest2)) :
    buildLoopF (fuel + 1) forest =
      buildLoopF fuel ((a.1 + b.1, HTree.node a.2 b.2) :: rest2) := by
  rw [buildLoopF]
  split
  · rename_i heq
    rw [h1] at heq
    cases heq
  · rename_i heq
    rw [h1] at heq
    simp only [Option.some.injEq, Prod.mk.injEq] at heq
    obtain ⟨ha, hr⟩ := heq
    subst ha
    subst hr
    split
    · rename_i heq2
      rw [h2] at heq2
      cases heq2
    · rename_i heq2
      rw [h2] at heq2
      simp only [Option.some.injEq, Prod.mk.injEq] at heq2
      obtain ⟨hb, hr2⟩ := heq2
      subst hb
      subst hr2
      rfl

theorem buildLoopF_spec (fuel : Nat) :
    ∀ forest : List (Nat × HTree), forest ≠ [] → forest.length ≤ fuel + 1 →
    ∃ t, buildLoopF fuel forest = some t ∧
      (∀ s, s ∈ forestSyms forest → s ∈ symsIn t) ∧
      (2 ≤ forest.length → ∃ tl tr, t = HTree.node tl tr) := by
  induction fuel with
  | zero =>
    intro forest hne hlen
    cases forest with
    | nil => exact absurd rfl hne
    | cons a rest =>
      have hr : rest = [] := by
        cases rest with
        | nil => rfl
        | cons b bs => simp only [List.length_cons] at hlen; omega
      subst hr
      refine ⟨a.2, ?_, ?_, ?_⟩
      · exact buildLoopF_last 0 [a] a rfl
      · intro s hs
        simpa [forestSyms] using hs
      · intro h2
        simp only [List.length_cons, List.length_nil] at h2
        omega
  | succ f ih =>
    intro forest hne hlen
    cases h1 : extractMin forest with
    | none => exact absurd ((extractMin_eq_none forest).mp h1) hne
    | some ar =>
      obtain ⟨a, rest1⟩ := ar
      cases h2 : extractMin rest1 with
      | none =>
        have hrest1 := (extractMin_eq_none rest1).mp h2
        subst hrest1
        have hflen := extractMin_length forest a [] h1
        simp only [List.length_nil] at hflen
        refine ⟨a.2, buildLoopF_last (f + 1) forest a h1, ?_, ?_⟩
        · intro s hs
          have := (extractMin_syms forest a [] h1 s).mp hs
          simpa [forestSyms] using this
        · intro hlen2
          omega
      | some br =>
        obtain ⟨b, rest2⟩ := br
        have hl1 := extractMin_length forest a rest1 h1
        have hl2 := extractMin_length rest1 b rest2 h2
        have hne2 : ((a.1 + b.1, HTree.node a.2 b.2) :: rest2) ≠ [] := by simp
        have hlen2 : ((a.1 + b.1, HTree.node a.2 b.2) :: rest2).length ≤ f + 1 := by
          simp only [List.length_cons]
          omega
        obtain ⟨t, ht, hmem, hnode⟩ := ih _ hne2 hlen2
        have heq := buildLoopF_step f forest a b rest1 rest2 h1 h2
        refine ⟨t, by rw [heq]; exact ht, ?_, ?_⟩
        · intro s hs
          have hs1 := (extractMin_syms forest a rest1 h1 s).mp hs
          have hs2 := extractMin_syms rest1 b rest2 h2 s
          apply hmem
          simp only [forestSyms, symsIn, List.mem_append]
          rcases hs1 with h | h
          · tauto
          · rcases hs2.mp h with h | h <;> tauto
        · intro _
          cases rest2 with
          | nil =>
            have hone : buildLoopF f [(a.1 + b.1, HTree.node a.2 b.2)] =
                some (HTree.node a.2 b.2) :=
              buildLoopF_last f _ (a.1 + b.1, HTree.node a.2 b.2) rfl
            rw [hone] at ht
            injection ht with ht2
            exact ⟨a.2, b.2, ht2.symm⟩
          | cons c cs =>
            exact hnode (by simp only [List.length_cons]; omega)

theorem initForest_length (ws : List Nat) : ∀ i, (initForest i ws).length = ws.length := by
  induction ws with
  | nil => intro i; simp [initForest]
  | cons w ws ih => intro i; simp [initForest, ih]

theorem mem_initForest_syms (ws : List Nat) :
    ∀ i s, s ∈ forestSyms (initForest i ws) ↔ i ≤ s ∧ s < i + ws.length := by
  induction ws with
  | nil =>
    intro i s
    simp only [initForest, forestSyms, List.not_mem_nil, List.length_nil, false_iff]
    omega
  | cons w ws ih =>
    intro i s
    simp only [initForest, forestSyms, symsIn, List.mem_append, List.mem_singleton,
      ih (i + 1), List.length_cons]
    omega

theorem Htree_complete :
    (∀ s, s < 256 → s ∈ symsIn Htree) ∧ ∃ tl tr, Htree = HTree.node tl tr := by
  have hlen : (initForest 0 SKULLTAG_FREQS).length = 256 := by
    rw [initForest_length]
    simp only [SKULLTAG_FREQS, List.length_replicate]
  have hne : initForest 0 SKULLTAG_FREQS ≠ [] := by
    intro h
    rw [h] at hlen
    simp at hlen
  obtain ⟨t, ht, hmem, hnode⟩ :=
    buildLoopF_spec (initForest 0 SKULLTAG_FREQS).length (initForest 0 SKULLTAG_FREQS)
      hne (by omega)
  have hH : Htree = t := by
    simp only [Htree, buildTree, ht, Option.getD_some]
  constructor
  · intro s hs
    rw [hH]
    apply hmem
    rw [mem_initForest_syms]
    constructor
    · omega
    · simp only [SKULLTAG_FREQS, List.length_replicate]
      omega
  · obtain ⟨tl, tr, h⟩ := hnode (by omega)
    exact ⟨tl, tr, hH.trans h⟩

theorem codeOf_of_mem (t : HTree) : ∀ s, s ∈ symsIn t → ∃ p, codeOf t s = some p := by
  induction t with
  | leaf s0 =>
    intro s hmem
    simp only [symsIn, List.mem_singleton] at hmem
    subst hmem
    exact ⟨[], by simp [codeOf]⟩
  | node l r ihl ihr =>
    intro s hmem
    simp only [symsIn, List.mem_append] at hmem
    rcases hmem with hmem | hmem
    · obtain ⟨p, hp⟩ := ihl s hmem
      exact ⟨false :: p, by simp only [codeOf]; rw [hp]⟩
    · cases hl : codeOf l s with
      | some p => exact ⟨false :: p, by simp only [codeOf]; rw [hl]⟩
      | none =>
        obtain ⟨p, hp⟩ := ihr s hmem
        exact ⟨true :: p, by simp only [codeOf]; rw [hl, hp]⟩

theorem codeOf_node_ne_nil (l r : HTree) (s : Nat) (p : List Bool)
    (h : codeOf (HTree.node l r) s = some p) : p ≠ [] := by
  simp only [codeOf] at h
  cases hl : codeOf l s with
  | some q =>
    rw [hl] at h
    simp only [Option.some.injEq] at h
    subst h
    simp
  | none =>
    rw [hl] at h
    cases hr : codeOf r s with
    | some q =>
      rw [hr] at h
      simp only [Option.some.injEq] at h
      subst h
      simp
    | none =>
      rw [hr] at h
      cases h

theorem decodeSym_append (t : HTree) : ∀ (s : Nat) (p rest : List Bool),
    codeOf t s = some p → decodeSym t (p ++ rest) = some (s, rest) := by
  induction t with
  | leaf s0 =>
    intro s p rest h
    simp only [codeOf] at h
    by_cases hs : s = s0
    · subst hs
      simp at h
      subst h
      simp [decodeSym]
    · simp [hs] at h
  | node l r ihl ihr =>
    intro s p rest h
    simp only [codeOf] at h
    cases hl : codeOf l s with
    | some q =>
      rw [hl] at h
      simp only [Option.some.injEq] at h
      subst h
      simp only [List.cons_append, decodeSym]
      exact ihl s q rest hl
    | none =>
      rw [hl] at h
      cases hr : codeOf r s with
      | some q =>
        rw [hr] at h
        simp only [Option.some.injEq] at h
        subst h
        simp only [List.cons_append, decodeSym]
        exact ihr s q rest hr
      | none =>
        rw [hr] at h
        cases h

theorem encodeBits_total (t : HTree) : ∀ msg : List Nat,
    (∀ x ∈ msg, x ∈ symsIn t) → ∃ bits, encodeBits t msg = some bits := by
  intro msg
  induction msg with
  | nil => intro _; exact ⟨[], rfl⟩
  | cons m ms ih =>
    intro h
    obtain ⟨p, hp⟩ := codeOf_of_mem t m (h m (by simp))
    obtain ⟨ps, hps⟩ := ih (fun x hx => h x (by simp [hx]))
    exact ⟨p ++ ps, by simp only [encodeBits]; rw [hp, hps]⟩

theorem decodeLoop_encodeBits (l r : HTree) : ∀ (msg : List Nat) (bits : List Bool)
    (fuel : Nat), encodeBits (HTree.node l r) msg = some bits → bits.length ≤ fuel →
    decodeLoop (HTree.node l r) fuel bits = some msg := by
  intro msg
  induction msg with
  | nil =>
    intro bits fuel h hf
    simp only [encodeBits, Option.some.injEq] at h
    subst h
    cases fuel <;> rfl
  | cons m ms ih =>
    intro bits fuel h hf
    simp only [encodeBits] at h
    cases hc : codeOf (HTree.node l r) m with
    | none => rw [hc] at h; cases h
    | some p =>
      rw [hc] at h
      cases he : encodeBits (HTree.node l r) ms with
      | none => rw [he] at h; cases h
      | some ps =>
        rw [he] at h
        simp only [Option.some.injEq] at h
        subst h
        have hp : p ≠ [] := codeOf_node_ne_nil l r m p hc
        cases p with
        | nil => exact absurd rfl hp
        | cons pb ptail =>
          cases fuel with
          | zero =>
            simp only [List.cons_append, List.length_cons] at hf
            omega
          | succ f =>
            have hds : decodeSym (HTree.node l r) ((pb :: ptail) ++ ps) = some (m, ps) :=
              decodeSym_append (HTree.node l r) m (pb :: ptail) ps hc
            simp only [List.cons_append] at hds ⊢
            rw [decodeLoop, hds]
            have hlen : ps.length ≤ f := by
              simp only [List.length_cons, List.length_append] at hf
              omega
            show Option.map (fun ms2 => m :: ms2) (decodeLoop (HTree.node l r) f ps) =
              some (m :: ms)
            rw [ih ps f he hlen]
            rfl

theorem byteToBits_bitsToByteLSB (bs : List Bool) :
    byteToBits bs.length (bitsToByteLSB bs) = bs := by
  induction bs with
  | nil => rfl
  | cons b rest ih =>
    cases b with
    | true =>
      have h1 : (1 + 2 * bitsToByteLSB rest) % 2 = 1 := by omega
      have h2 : (1 + 2 * bitsToByteLSB rest) / 2 = bitsToByteLSB rest := by omega
      simp [List.length_cons, bitsToByteLSB, byteToBits, h1, h2, ih]
    | false =>
      have h1 : (2 * bitsToByteLSB rest) % 2 = 0 := by omega
      have h2 : (2 * bitsToByteLSB rest) / 2 = bitsToByteLSB rest := by omega
      simp [List.length_cons, bitsToByteLSB, byteToBits, h1, h2, ih]

theorem take_length_append (l1 l2 : List Bool) : (l1 ++ l2).take l1.length = l1 := by
  induction l1 with
  | nil => simp
  | cons a l1 ih => simp [ih]

theorem bytesToBits_bitsToBytes (k : Nat) : ∀ bits : List Bool, bits.length = 8 * k →
    bytesToBits (bitsToBytes bits) = bits := by
  induction k with
  | zero =>
    intro bits h
    simp only [Nat.mul_zero] at h
    cases bits with
    | nil => simp [bitsToBytes, bytesToBits]
    | cons b rest => simp at h
  | succ n ih =>
    intro bits h
    cases bits with
    | nil => simp at h
    | cons b rest =>
      have hrest : rest.length = 8 * n + 7 := by
        simp only [List.length_cons] at h
        omega
      have htake : ((b :: rest).take 8).length = 8 := by
        simp only [List.length_take, List.length_cons]
        omega
      have hdroplen : (rest.drop 7).length = 8 * n := by
        simp only [List.length_drop]
        omega
      have hchunk : byteToBits 8 (bitsToByteLSB ((b :: rest).take 8)) = (b :: rest).take 8 := by
        have hx := byteToBits_bitsToByteLSB ((b :: rest).take 8)
        rw [htake] at hx
        exact hx
      rw [bitsToBytes]
      simp only [bytesToBits]
      rw [hchunk, ih (rest.drop 7) hdroplen]
      have h8 : rest.drop 7 = (b :: rest).drop 8 := rfl
      rw [h8, List.take_append_drop]

theorem huffman_roundtrip_tree (l r : HTree) (msg : List Nat)
    (hmem : ∀ x ∈ msg, x ∈ symsIn (HTree.node l r)) :
    ∃ e, huffEncode (HTree.node l r) msg = some e ∧
      huffDecode (HTree.node l r) e = some msg := by
  obtain ⟨bits, hbits⟩ := encodeBits_total (HTree.node l r) msg hmem
  refine ⟨(8 - bits.length % 8) % 8 ::
    bitsToBytes (bits ++ List.replicate ((8 - bits.length % 8) % 8) false), ?_, ?_⟩
  · rw [huffEncode, hbits]
  · rw [huffDecode]
    have hklen : (bits ++ List.replicate ((8 - bits.length % 8) % 8) false).length =
        bits.length + (8 - bits.length % 8) % 8 := by
      simp [List.length_append, List.length_replicate]
    obtain ⟨k, hk⟩ : ∃ k, bits.length + (8 - bits.length % 8) % 8 = 8 * k := by
      have : (bits.length + (8 - bits.length % 8) % 8) % 8 = 0 := by omega
      exact ⟨(bits.length + (8 - bits.length % 8) % 8) / 8, by omega⟩
    rw [bytesToBits_bitsToBytes k _ (by rw [hklen, hk])]
    rw [hklen]
    rw [if_pos (by omega)]
    have hsub : bits.length + (8 - bits.length % 8) % 8 - (8 - bits.length % 8) % 8 =
        bits.length := by omega
    rw [hsub, take_length_append]
    exact decodeLoop_encodeBits l r msg bits bits.length hbits (Nat.le_refl _)

theorem rcon_roundtrip_aux (b : List Nat) (hb : ∀ x ∈ b, x < 256) :
    ∃ e, huffEncode Htree b = some e ∧ huffDecode Htree e = some b := by
  obtain ⟨hcomplete, tl, tr, hnode⟩ := Htree_complete
  rw [hnode]
  exact huffman_roundtrip_tree tl tr b
    (fun x hx => by rw [← hnode]; exact hcomplete x (hb x hx))

theorem decode_raw_salt : RCONClient.decode saltRaw = some (svrc_Salt :: List.replicate 32 0) := by
  obtain ⟨e, he, hd⟩ := rcon_roundtrip_aux (svrc_Salt :: List.replicate 32 0) (by decide)
  rw [saltRaw, he, Option.getD_some]
  exact hd

theorem decode_raw_invalidpw : RCONClient.decode invRaw = some [svrc_InvalidPassword] := by
  obtain ⟨e, he, hd⟩ := rcon_roundtrip_aux [svrc_InvalidPassword] (by decide)
  rw [invRaw, he, Option.getD_some]
  exact hd

theorem decode_raw_empty : RCONClient.decode emptyRaw = some [] := by
  obtain ⟨e, he, hd⟩ := rcon_roundtrip_aux [] (by decide)
  rw [emptyRaw, he, Option.getD_some]
  exact hd

theorem decode_raw_message : RCONClient.decode msgRaw = some [svrc_Message, 255, 65] := by
  obtain ⟨e, he, hd⟩ := rcon_roundtrip_aux [svrc_Message, 255, 65] (by decide)
  rw [msgRaw, he, Option.getD_some]
  exact hd

theorem writeItemsAux_serializeAll (fields : List RCONClient.PacketItem) :
    ∀ (parts : List (List Nat)) (buf : List Nat),
      RCONClient.serializeAll fields = some parts →
      RCONClient.writeItemsAux buf fields = some (buf ++ RCONClient.concatAll parts) := by
  induction fields with
  | nil =>
    intro parts buf h
    simp only [RCONClient.serializeAll, Option.some.injEq] at h
    subst h
    simp [RCONClient.writeItemsAux, RCONClient.concatAll]
  | cons f fs ih =>
    intro parts buf h
    simp only [RCONClient.serializeAll] at h
    cases hf : RCONClient.serializeItem f with
    | none =>
      rw [hf] at h
      cases hs : RCONClient.serializeAll fs with
      | none => rw [hs] at h; simp at h
      | some bss => rw [hs] at h; simp at h
    | some bs =>
      rw [hf] at h
      cases hs : RCONClient.serializeAll fs with
      | none => rw [hs] at h; simp at h
      | some bss =>
        rw [hs] at h
        simp only [Option.some.injEq] at h
        subst h
        rw [RCONClient.writeItemsAux, hf]
        show RCONClient.writeItemsAux (buf ++ bs) fs =
          some (buf ++ RCONClient.concatAll (bs :: bss))
        rw [ih bss (buf ++ bs) hs]
        simp [RCONClient.concatAll, List.append_assoc]

theorem hexDigestAscii_lower : ∀ digest : List Nat, (∀ x ∈ digest, x < 256) →
    ∀ c ∈ hexDigestAscii digest, (48 ≤ c ∧ c ≤ 57) ∨ (97 ≤ c ∧ c ≤ 102) := by
  intro digest
  induction digest with
  | nil => intro _ c hc; simp [hexDigestAscii] at hc
  | cons b rest ih =>
    intro hd c hc
    simp only [hexDigestAscii, List.mem_cons] at hc
    have hb : b < 256 := hd b (by simp)
    rcases hc with hc | hc | hc
    · subst hc
      have h16 : b / 16 < 16 := by omega
      simp only [hexChar]
      split <;> omega
    · subst hc
      have h16 : b % 16 < 16 := by omega
      simp only [hexChar]
      split <;> omega
    · exact ih (fun x hx => hd x (by simp [hx])) c hc

/-- C1: Round-trip of the session payload transforms: for every byte
sequence b (the empty sequence included), decoding the Huffman-encoded
form of b under the fixed shared frequency table yields b again. -/
theorem huffman_roundtrip_encode_decode (b : List Nat) (hb : ∀ x ∈ b, x < 256) :
    ∃ e, RCONClient.encode [RCONClient.PacketItem.raw b] = some e ∧
      RCONClient.decode e = some b := by
  obtain ⟨e, he, hd⟩ := rcon_roundtrip_aux b hb
  exact ⟨e, he, hd⟩

/-- Witness for C1 at a concrete byte sequence containing a zero byte and
a high byte. -/
theorem huffman_roundtrip_encode_decode_witness :
    ∃ e, RCONClient.encode [RCONClient.PacketItem.raw [104, 105, 0, 255]] = some e ∧
      RCONClient.decode e = some [104, 105, 0, 255] :=
  huffman_roundtrip_encode_decode [104, 105, 0, 255] (by decide)

/-- C2: On a Salt packet in any pre-Established state, handle_packet takes
exactly the first 32 bytes of the payload as the salt and sends one
Password packet whose payload is the lowercase hex ASCII encoding of
MD5(salt concatenated with the UTF-8 password), with no extra iterations
or salts; the hex encoding uses only the lowercase hex ASCII alphabet. -/
theorem salt_md5_password_packet (ext : Externals) (s : RCONClient.Session)
    (packet_data : List Nat) :
    RCONClient.handle_packet ext s svrc_Salt packet_data =
      Except.ok [RCONClient.Effect.send [RCONClient.PacketItem.op clrc_Password,
        RCONClient.PacketItem.raw
          (hexDigestAscii (ext.md5 (packet_data.take 32 ++ utf8Encode s.rcon_password)))]] ∧
    (∀ digest : List Nat, (∀ x ∈ digest, x < 256) →
      ∀ c ∈ hexDigestAscii digest, (48 ≤ c ∧ c ≤ 57) ∨ (97 ≤ c ∧ c ≤ 102)) :=
  ⟨rfl, hexDigestAscii_lower⟩

/-- Witness for C2 at concrete externals, session and payload. -/
theorem salt_md5_password_packet_witness :
    RCONClient.handle_packet ext0 RCONClient.init svrc_Salt [1, 2, 3] =
      Except.ok [RCONClient.Effect.send [RCONClient.PacketItem.op clrc_Password,
        RCONClient.PacketItem.raw
          (hexDigestAscii (ext0.md5 (([1, 2, 3] : List Nat).take 32 ++
            utf8Encode RCONClient.init.rcon_password)))]] :=
  (salt_md5_password_packet ext0 RCONClient.init [1, 2, 3]).1

/-- C3: The outgoing frame builder concatenates the serialized forms of
the fields left to right (an int opcode as a single byte, text as UTF-8
bytes with no terminator, raw bytes unchanged) and that buffer is exactly
the input handed to the Huffman encoder; in particular a command frame is
the Command opcode byte followed by the unterminated UTF-8 command text. -/
theorem outgoing_frame_concat (fields : List RCONClient.PacketItem)
    (parts : List (List Nat)) (h : RCONClient.serializeAll fields = some parts) :
    RCONClient.encode fields = huffEncode Htree (RCONClient.concatAll parts) ∧
    ∀ cmd : String, RCONClient.encode [RCONClient.PacketItem.op clrc_Command,
      RCONClient.PacketItem.text cmd] =
      huffEncode Htree (clrc_Command :: utf8Encode cmd) := by
  constructor
  · have hw := writeItemsAux_serializeAll fields parts [] h
    rw [RCONClient.encode, hw]
    rfl
  · intro cmd
    rfl

/-- Witness for C3 at a concrete command frame. -/
theorem outgoing_frame_concat_witness :
    RCONClient.encode [RCONClient.PacketItem.op clrc_Command,
      RCONClient.PacketItem.text "map"] =
      huffEncode Htree (RCONClient.concatAll [[clrc_Command], utf8Encode "map"]) :=
  (outgoing_frame_concat [RCONClient.PacketItem.op clrc_Command,
    RCONClient.PacketItem.text "map"] [[clrc_Command], utf8Encode "map"] rfl).1

/-- C4: Every decoded inbound buffer is split as first byte = opcode and
rest = payload, in connect as well as in the listener; an empty decoded
buffer raises (emptyPacket, the IndexError of data[0], the condition the
spec names MalformedPacket) and is surfaced - connect returns it as its
error and the listener prints it and tears the session down - rather than
being silently ignored. -/
theorem parse_incoming_opcode_split :
    (RCONClient.parseIncoming [] = Except.error ZandronumError.emptyPacket) ∧
    (∀ (b : Nat) (rest : List Nat),
      RCONClient.parseIncoming (b :: rest) = Except.ok (b, rest)) ∧
    (∀ ext s src raw, s.running = true → RCONClient.decode raw = some [] →
      RCONClient.listen_loop_iter ext s (RCONClient.RecvResult.datagram src raw) =
        ((RCONClient.disconnect false false s).1,
         RCONClient.Effect.printLine
             ("[Unhandled error]: " ++ ZandronumError.emptyPacket.message) ::
           (RCONClient.disconnect false false s).2,
         RCONClient.LoopControl.stopped)) ∧
    (∀ ext s addr pwd src raw, RCONClient.decode raw = some [] →
      (RCONClient.connect ext s addr pwd (RCONClient.RecvResult.datagram src raw)).2.2 =
        some ZandronumError.emptyPacket) := by
  refine ⟨rfl, fun b rest => rfl, ?_, ?_⟩
  · intro ext s src raw hrun hdec
    simp [RCONClient.listen_loop_iter, hrun, hdec, RCONClient.parseIncoming]
  · intro ext s addr pwd src raw hdec
    simp [RCONClient.connect, hdec, RCONClient.parseIncoming]

/-- Witness for C4: concrete wire bytes that decode to the empty buffer,
fed to both the listener and connect. -/
theorem parse_incoming_opcode_split_witness :
    RCONClient.listen_loop_iter ext0 listeningSession
        (RCONClient.RecvResult.datagram "s" emptyRaw) =
      ((RCONClient.disconnect false false listeningSession).1,
       RCONClient.Effect.printLine
           ("[Unhandled error]: " ++ ZandronumError.emptyPacket.message) ::
         (RCONClient.disconnect false false listeningSession).2,
       RCONClient.LoopControl.stopped) ∧
    (RCONClient.connect ext0 RCONClient.init "a" "pw"
        (RCONClient.RecvResult.datagram "s" emptyRaw)).2.2 =
      some ZandronumError.emptyPacket :=
  ⟨parse_incoming_opcode_split.2.2.1 ext0 listeningSession "s" emptyRaw rfl
     decode_raw_empty,
   parse_incoming_opcode_split.2.2.2 ext0 RCONClient.init "a" "pw" "s" emptyRaw
     decode_raw_empty⟩

/-- C5 counterexample: the claim says establishment happens exactly on
LoggedIn, but connect marks the session running, reports no error and
starts the listener already after handling a Salt packet - the usual first
server reply - with no LoggedIn opcode ever received. -/
theorem connect_salt_establishes_counterexample :
    (RCONClient.connect ext0 RCONClient.init "a" "pw"
        (RCONClient.RecvResult.datagram "s" saltRaw)).1.running = true ∧
    (RCONClient.connect ext0 RCONClient.init "a" "pw"
        (RCONClient.RecvResult.datagram "s" saltRaw)).2.2 = none ∧
    RCONClient.Effect.startListener ∈
      (RCONClient.connect ext0 RCONClient.init "a" "pw"
        (RCONClient.RecvResult.datagram "s" saltRaw)).2.1 := by
  have h := decode_raw_salt
  refine ⟨?_, ?_, ?_⟩ <;>
    simp [RCONClient.connect, h, RCONClient.parseIncoming, RCONClient.handle_packet,
      svrc_Salt, svrc_OldProtocol, svrc_Banned]

/-- C5 amended: connect marks the session running and starts the
SessionListener after its first inbound datagram is decoded and handled
without an exception, whatever the opcode (in particular already on Salt);
the LoggedIn opcode itself only prints a confirmation line and performs no
state change. -/
theorem connect_establishes_on_first_packet (ext : Externals) (s : RCONClient.Session)
    (addr pwd src : String) (raw : List Nat) (pid : Nat) (rest : List Nat)
    (effs : List RCONClient.Effect)
    (hdec : RCONClient.decode raw = some (pid :: rest))
    (hhp : RCONClient.handle_packet ext { s with address := addr, rcon_password := pwd }
      pid rest = Except.ok effs) :
    RCONClient.connect ext s addr pwd (RCONClient.RecvResult.datagram src raw) =
      ({ s with address := addr, rcon_password := pwd, running := true },
       ([RCONClient.Effect.printLine ("[+] Connecting to " ++ addr ++ "..."),
         RCONClient.Effect.send [RCONClient.PacketItem.op clrc_BeginConnection,
           RCONClient.PacketItem.op protocol_ver],
         RCONClient.Effect.printLine ("[ OK ] Server found: " ++ src)] ++ effs ++
         [RCONClient.Effect.startListener]),
       none) ∧
    (∀ (s2 : RCONClient.Session) (d : List Nat),
      RCONClient.handle_packet ext s2 svrc_LoggedIn d =
        Except.ok [RCONClient.Effect.printLine "[ OK ] Logged in."]) := by
  constructor
  · simp [RCONClient.connect, hdec, RCONClient.parseIncoming, hhp]
  · intro s2 d
    rfl

/-- Witness for the amended C5, instantiated at the concrete Salt wire
bytes. -/
theorem connect_establishes_on_first_packet_witness :
    RCONClient.connect ext0 RCONClient.init "a" "pw"
        (RCONClient.RecvResult.datagram "s" saltRaw) =
      ({ RCONClient.init with address := "a", rcon_password := "pw", running := true },
       ([RCONClient.Effect.printLine ("[+] Connecting to " ++ "a" ++ "..."),
         RCONClient.Effect.send [RCONClient.PacketItem.op clrc_BeginConnection,
           RCONClient.PacketItem.op protocol_ver],
         RCONClient.Effect.printLine ("[ OK ] Server found: " ++ "s")] ++
         [RCONClient.Effect.send [RCONClient.PacketItem.op clrc_Password,
           RCONClient.PacketItem.raw (hexDigestAscii (ext0.md5
             ((List.replicate 32 0).take 32 ++ utf8Encode "pw")))]] ++
         [RCONClient.Effect.startListener]),
       none) :=
  (connect_establishes_on_first_packet ext0 RCONClient.init "a" "pw" "s" saltRaw
    svrc_Salt (List.replicate 32 0)
    [RCONClient.Effect.send [RCONClient.PacketItem.op clrc_Password,
      RCONClient.PacketItem.raw (hexDigestAscii (ext0.md5
        ((List.replicate 32 0).take 32 ++ utf8Encode "pw")))]]
    decode_raw_salt rfl).1

/-- C6: A timeout before the first server reply makes connect fail with
the timed-out ZandronumError (the spec's ConnectionTimedOut); the only
datagram sent is the single BeginConnection carrying the protocol version,
with no retry, and the running flag is untouched, so the session is not
established. -/
theorem connect_timeout_no_retry (ext : Externals) (s : RCONClient.Session)
    (addr pwd : String) :
    RCONClient.connect ext s addr pwd RCONClient.RecvResult.timeout =
      ({ s with address := addr, rcon_password := pwd },
       [RCONClient.Effect.printLine ("[+] Connecting to " ++ addr ++ "..."),
        RCONClient.Effect.send [RCONClient.PacketItem.op clrc_BeginConnection,
          RCONClient.PacketItem.op protocol_ver]],
       some ZandronumError.timedOut) ∧
    (RCONClient.connect ext s addr pwd RCONClient.RecvResult.timeout).1.running =
      s.running :=
  ⟨rfl, rfl⟩

/-- C7 counterexample: on an InvalidPassword reply, connect fails with the
invalid-password ZandronumError, but contrary to the claim the socket is
still open after the failure - connect has no teardown path of its own. -/
theorem connect_invalidpw_socket_open_counterexample :
    (RCONClient.connect ext0 RCONClient.init "a" "pw"
        (RCONClient.RecvResult.datagram "s" invRaw)).2.2 =
      some ZandronumError.invalidPassword ∧
    (RCONClient.connect ext0 RCONClient.init "a" "pw"
        (RCONClient.RecvResult.datagram "s" invRaw)).1.socketOpen = true := by
  have h := decode_raw_invalidpw
  constructor <;>
    simp [RCONClient.connect, h, RCONClient.parseIncoming, RCONClient.handle_packet,
      svrc_InvalidPassword, svrc_OldProtocol, svrc_Banned, svrc_Salt, svrc_LoggedIn,
      RCONClient.init]

/-- C7 amended: an InvalidPassword reply in any pre-Established state makes
connect fail with the invalid-password error (the spec's
AuthenticationError); connect itself leaves the socket and the running
flag exactly as they were, and the socket is closed only by the subsequent
disconnect call (which the CLI wrapper performs on any fatal error), after
which socketOpen is false. -/
theorem connect_invalidpw_auth_failure (ext : Externals) (s : RCONClient.Session)
    (addr pwd src : String) (raw rest0 : List Nat)
    (hdec : RCONClient.decode raw = some (svrc_InvalidPassword :: rest0)) :
    (RCONClient.connect ext s addr pwd (RCONClient.RecvResult.datagram src raw)).2.2 =
      some ZandronumError.invalidPassword ∧
    (RCONClient.connect ext s addr pwd
        (RCONClient.RecvResult.datagram src raw)).1.socketOpen = s.socketOpen ∧
    (RCONClient.connect ext s addr pwd
        (RCONClient.RecvResult.datagram src raw)).1.running = s.running ∧
    (RCONClient.disconnect false false
      (RCONClient.connect ext s addr pwd
        (RCONClient.RecvResult.datagram src raw)).1).1.socketOpen = false := by
  refine ⟨?_, ?_, ?_, ?_⟩ <;>
    simp [RCONClient.connect, hdec, RCONClient.parseIncoming, RCONClient.handle_packet,
      svrc_InvalidPassword, svrc_OldProtocol, svrc_Banned, svrc_Salt, svrc_LoggedIn,
      RCONClient.disconnect]

/-- Witness for the amended C7 at the concrete InvalidPassword wire bytes. -/
theorem connect_invalidpw_auth_failure_witness :
    (RCONClient.connect ext0 RCONClient.init "a" "pw"
        (RCONClient.RecvResult.datagram "s" invRaw)).2.2 =
      some ZandronumError.invalidPassword ∧
    (RCONClient.connect ext0 RCONClient.init "a" "pw"
        (RCONClient.RecvResult.datagram "s" invRaw)).1.socketOpen =
      RCONClient.init.socketOpen ∧
    (RCONClient.connect ext0 RCONClient.init "a" "pw"
        (RCONClient.RecvResult.datagram "s" invRaw)).1.running =
      RCONClient.init.running ∧
    (RCONClient.disconnect false false
      (RCONClient.connect ext0 RCONClient.init "a" "pw"
        (RCONClient.RecvResult.datagram "s" invRaw)).1).1.socketOpen = false :=
  connect_invalidpw_auth_failure ext0 RCONClient.init "a" "pw" "s" invRaw []
    decode_raw_invalidpw

/-- C8: A receive timeout while the session is running makes one listener
iteration send exactly one Pong keep-alive packet, leave the session state
unchanged, and continue the loop - the timeout is no error and causes no
disconnection. -/
theorem listener_timeout_sends_pong (ext : Externals) (s : RCONClient.Session)
    (hrun : s.running = true) :
    RCONClient.listen_loop_iter ext s RCONClient.RecvResult.timeout =
      (s, [RCONClient.Effect.send [RCONClient.PacketItem.op clrc_Pong]],
       RCONClient.LoopControl.next) := by
  simp [RCONClient.listen_loop_iter, hrun]

/-- Witness for C8 at a concrete running session. -/
theorem listener_timeout_sends_pong_witness :
    RCONClient.listen_loop_iter ext0 listeningSession RCONClient.RecvResult.timeout =
      (listeningSession, [RCONClient.Effect.send [RCONClient.PacketItem.op clrc_Pong]],
       RCONClient.LoopControl.next) :=
  listener_timeout_sends_pong ext0 listeningSession rfl

/-- C9: disconnect is idempotent and total: on a running session the first
call emits exactly one Disconnect datagram before the closing print, a
second call emits no datagram and reports no error, and for every
combination of send/close failures both calls return normally with the
running flag cleared. -/
theorem disconnect_idempotent (s : RCONClient.Session) (hrun : s.running = true) :
    (RCONClient.disconnect false false s).2 =
      [RCONClient.Effect.send [RCONClient.PacketItem.op clrc_Disconnect],
       RCONClient.Effect.printLine "[Disconnected]"] ∧
    (∀ sendFails closeFails : Bool,
      (RCONClient.disconnect sendFails closeFails
        (RCONClient.disconnect false false s).1).2 =
        [RCONClient.Effect.printLine "[Disconnected]"]) ∧
    (∀ sendFails closeFails : Bool,
      (RCONClient.disconnect sendFails closeFails s).1.running = false) := by
  refine ⟨?_, ?_, ?_⟩
  · simp [RCONClient.disconnect, hrun]
  · intro sf cf
    simp [RCONClient.disconnect, hrun]
  · intro sf cf
    cases sf <;> cases cf <;> simp [RCONClient.disconnect, hrun]

/-- Witness for C9 at a concrete running session. -/
theorem disconnect_idempotent_witness :
    (RCONClient.disconnect false false listeningSession).2 =
      [RCONClient.Effect.send [RCONClient.PacketItem.op clrc_Disconnect],
       RCONClient.Effect.printLine "[Disconnected]"] ∧
    (∀ sendFails closeFails : Bool,
      (RCONClient.disconnect sendFails closeFails
        (RCONClient.disconnect false false listeningSession).1).2 =
        [RCONClient.Effect.printLine "[Disconnected]"]) ∧
    (∀ sendFails closeFails : Bool,
      (RCONClient.disconnect sendFails closeFails listeningSession).1.running = false) :=
  disconnect_idempotent listeningSession rfl

/-- C10: Every payload carried by a Message or unreliable/broadcast opcode
is handled without raising, whatever its bytes (valid UTF-8 or not): the
payload is decoded with replacement and emitted as one display line, and
the listener iteration returns the session unchanged and keeps running. -/
theorem message_payload_total_display (ext : Externals) (s : RCONClient.Session)
    (pid : Nat) (pdata : List Nat) (src : String) (raw : List Nat)
    (hpid : pid = svrc_Message ∨ pid ∈ svrcuValues)
    (hrun : s.running = true)
    (hdec : RCONClient.decode raw = some (pid :: pdata)) :
    RCONClient.handle_packet ext s pid pdata =
      Except.ok [RCONClient.Effect.printLine (displayText ext pdata)] ∧
    RCONClient.listen_loop_iter ext s (RCONClient.RecvResult.datagram src raw) =
      (s, [RCONClient.Effect.printLine (displayText ext pdata)],
       RCONClient.LoopControl.next) := by
  have hhp : RCONClient.handle_packet ext s pid pdata =
      Except.ok [RCONClient.Effect.printLine (displayText ext pdata)] := by
    rcases hpid with h | h
    · subst h
      rfl
    · simp only [svrcuValues] at h
      fin_cases h <;> rfl
  refine ⟨hhp, ?_⟩
  simp [RCONClient.listen_loop_iter, hrun, hdec, RCONClient.parseIncoming, hhp]

/-- Witness for C10 at a concrete Message datagram whose payload is not
valid UTF-8. -/
theorem message_payload_total_display_witness :
    RCONClient.handle_packet ext0 listeningSession svrc_Message [255, 65] =
      Except.ok [RCONClient.Effect.printLine (displayText ext0 [255, 65])] ∧
    RCONClient.listen_loop_iter ext0 listeningSession
        (RCONClient.RecvResult.datagram "s" msgRaw) =
      (listeningSession,
       [RCONClient.Effect.printLine (displayText ext0 [255, 65])],
       RCONClient.LoopControl.next) :=
  message_payload_total_display ext0 listeningSession svrc_Message [255, 65] "s" msgRaw
    (Or.inl rfl) rfl decode_raw_message
